import Mathlib

/-!
# Callback codec, pricing and purchase lifecycle of the Telegram shop handler

A shallow embedding of `internal/handler/handler.go`.

Go strings are lists of characters (`Str`); every separator the handler splits on is a
one-byte ASCII character, so splitting on characters and on bytes agree.  Go's `int` is the
64-bit signed integer: values are mathematical integers and arithmetic that can overflow is
wrapped explicitly (`wrap64`).  Calls into collaborators (stores, payment providers, the
message transport) are recorded as a list of events; whether each call succeeds is an input.
-/

namespace Handler

/-- Go `string`. -/
abbrev Str := List Char

/-! ## Standard-library functions used by the handler -/

/-- Go `strings.Split(s, sep)` for a one-character separator: all pieces between
occurrences of `sep`; the empty string gives one empty piece. -/
def Split : Str → Char → List Str
  | [], _ => [[]]
  | c :: cs, sep =>
    if c = sep then [] :: Split cs sep
    else
      match Split cs sep with
      | [] => [[c]]
      | p :: ps => (c :: p) :: ps

/-- Go `strings.Cut(s, sep)`: the text before and after the first `sep`, when there is one. -/
def Cut : Str → Char → Option (Str × Str)
  | [], _ => none
  | c :: cs, sep =>
    if c = sep then some ([], cs)
    else
      match Cut cs sep with
      | none => none
      | some (a, b) => some (c :: a, b)

/-- Go `strings.SplitN(s, sep, 2)` for a one-character separator: at most two pieces, the
second being the unsplit remainder after the first `sep`. -/
def SplitN2 (s : Str) (sep : Char) : List Str :=
  match Cut s sep with
  | none => [s]
  | some (a, b) => [a, b]

/-- Go `map[string]string`, as an association list with at most one entry per key. -/
abbrev GoMap := List (Str × Str)

/-- Map assignment `m[k] = v`. -/
def GoMap.set (m : GoMap) (k v : Str) : GoMap :=
  m.filter (fun e => !decide (e.1 = k)) ++ [(k, v)]

/-- Map lookup with presence, `v, ok := m[k]`. -/
def GoMap.get : GoMap → Str → Option Str
  | [], _ => none
  | (k', v) :: rest, k => if k' = k then some v else GoMap.get rest k

/-- Map indexing `m[k]`: the zero value (empty string) when the key is absent. -/
def GoMap.index (m : GoMap) (k : Str) : Str :=
  (m.get k).getD []

/-- The decimal digit character of `d < 10`. -/
def digitChar (d : Nat) : Char :=
  Char.ofNat (48 + d)

/-- The digit loop of `fmt`'s integer formatting: digits are produced from the least
significant one and written in front of what is already there.  `fuel` bounds the number of
iterations; `u + 1` is always enough. -/
def fmtDigits : Nat → Nat → Str → Str
  | 0, _, acc => acc
  | fuel + 1, u, acc =>
    if u < 10 then digitChar u :: acc
    else fmtDigits fuel (u / 10) (digitChar (u % 10) :: acc)

/-- Decimal rendering of an integer, `fmt.Sprintf("%d", n)`. -/
def itoa (n : Int) : Str :=
  if n < 0 then '-' :: fmtDigits (n.natAbs + 1) n.natAbs []
  else fmtDigits (n.natAbs + 1) n.natAbs []

/-- The digit loop of `strconv.Atoi`: every byte must be a decimal digit. -/
def parseDigits : Nat → Str → Option Nat
  | n, [] => some n
  | n, ch :: rest =>
    if 48 ≤ ch.toNat ∧ ch.toNat ≤ 57 then parseDigits (n * 10 + (ch.toNat - 48)) rest
    else none

/-- Go `strconv.Atoi` on a 64-bit platform: an optional sign, then one or more decimal
digits, the value being within the range of `int`; `none` stands for a returned error. -/
def Atoi (s : Str) : Option Int :=
  match s with
  | [] => none
  | c :: rest =>
    let neg := decide (c = '-')
    let ds := if c = '-' ∨ c = '+' then rest else s
    if ds = [] then none
    else
      match parseDigits 0 ds with
      | none => none
      | some u =>
        if neg then (if u ≤ 2 ^ 63 then some (-(u : Int)) else none)
        else (if u < 2 ^ 63 then some (u : Int) else none)

/-- Reduction of an integer to Go's 64-bit two's-complement `int`. -/
def wrap64 (x : Int) : Int :=
  (x + 2 ^ 63) % 2 ^ 64 - 2 ^ 63

/-! ## Callback codec and pricing (handler.go, lines 416-441) -/

/-- The body of the loop of `parseCallbackData` (lines 425-430): one piece is split at its
first `=` and, when that gives two parts, stored in the result. -/
def parseParam (result : GoMap) (param : Str) : GoMap :=
  let kv := SplitN2 param '='
  if kv.length = 2 then result.set (kv.getD 0 []) (kv.getD 1 []) else result

/-- The function `parseCallbackData` (lines 416-433). -/
def parseCallbackData (data : Str) : GoMap :=
  let parts := Split data '?'
  if parts.length < 2 then []
  else
    let params := Split (parts.getD 1 []) '&'
    params.foldl parseParam []

/-- The constant `CallbackSell`. -/
def CallbackSell : Str := "sell".toList

/-- The function `buildSellCallbackData` (lines 435-437): `fmt.Sprintf("%s?month=%d", CallbackSell, month)`. -/
def buildSellCallbackData (month : Int) : Str :=
  CallbackSell ++ "?month=".toList ++ itoa month

/-- The function `calculatePrice` (lines 439-441): `config.Price() * month` in 64-bit
arithmetic; the configured price is a parameter. -/
def calculatePrice (price month : Int) : Int :=
  wrap64 (price * month)

/-- Go's conversion `float64(x)` of an `int`, first step: the number of low bits that do
not fit the 53-bit significand of a float64. -/
def float64Shift : Nat → Nat → Nat
  | 0, _ => 0
  | fuel + 1, a => if a < 2 ^ 53 then 0 else float64Shift fuel (a / 2) + 1

/-- Go's conversion `float64(x)` of an `int`: the value of the nearest float64 (round to
nearest, ties to even), for `|x| < 2 ^ 64`.  That value is an integer, so it is kept as
one; it is `x` itself whenever `|x| ≤ 2 ^ 53`. -/
def float64 (x : Int) : Int :=
  let a := x.natAbs
  let e := float64Shift 64 a
  let q := a / 2 ^ e
  let r := a % 2 ^ e
  let up := decide (2 ^ e < 2 * r) || (decide (2 * r = 2 ^ e) && decide (q % 2 = 1))
  let m := if up then q + 1 else q
  if x < 0 then -((m * 2 ^ e : Nat) : Int) else ((m * 2 ^ e : Nat) : Int)

/-! ## Data model

The packages `database`, `cryptopay`, `yookasa`, `translation` and `config` are used by
`handler.go` but declared elsewhere; what the handler needs of them is given here. -/

/-- Go `time.Time`, as an instant. -/
abbrev Time := Int

/-- Modelled from the spec: the invoice-type discriminant of a purchase, one of the two
payment provider variants (`database.InvoiceTypeCrypto`, `database.InvoiceTypeYookasa`);
the declaration is in package `database`. -/
inductive InvoiceType where
  | Crypto
  | Yookasa
  deriving DecidableEq

/-- Modelled from the spec: the lifecycle status of a purchase, `New` then `Pending`
(`database.PurchaseStatusNew`, `database.PurchaseStatusPending`), and the terminal statuses
set outside the handler; the declaration is in package `database`. -/
inductive PurchaseStatus where
  | New
  | Pending
  | Paid
  | Cancel
  deriving DecidableEq

/-- Modelled from the spec: the customer record (`database.Customer`): internal identifier,
external messaging identifier, language, optional expiry and optional subscription link. -/
structure Customer where
  ID : Int
  TelegramID : Int
  Language : Str
  ExpireAt : Option Time
  SubscriptionLink : Option Str
  deriving DecidableEq

/-- Modelled from the spec: the purchase record (`database.Purchase`).  The fields written
by the handlers at creation, and the provider invoice columns they update later, which are
unset (`none`) until then.  `Amount` is a float64, kept as the integer it equals. -/
structure Purchase where
  InvoiceType : InvoiceType
  Status : PurchaseStatus
  Amount : Int
  Currency : Str
  CustomerID : Int
  Month : Int
  CryptoInvoiceUrl : Option Str
  CryptoInvoiceID : Option Int
  YookasaUrl : Option Str
  YookasaID : Option Str
  deriving DecidableEq

/-- A value of the `map[string]interface{}` handed to `UpdateFields`. -/
inductive Value where
  | str (s : Str)
  | int (n : Int)
  | status (s : PurchaseStatus)
  deriving DecidableEq

/-- Modelled from the spec: the purchase store, the rows in order of creation; the
identifier of a row is its position. -/
structure PurchaseRepository where
  rows : List Purchase
  deriving DecidableEq

/-- Modelled from the spec: `create(Purchase) → id` of the purchase store
(`PurchaseRepository.Create`, in package `database`).  On success the row is added and its
fresh identifier returned; on failure (`ok = false`) the store is untouched. -/
def PurchaseRepository.Create (repo : PurchaseRepository) (ok : Bool) (p : Purchase) :
    PurchaseRepository × Option Int :=
  if ok then (⟨repo.rows ++ [p]⟩, some (repo.rows.length : Int)) else (repo, none)

/-- One column assignment of `UpdateFields`; `none` when the column does not exist or the
value has the wrong type. -/
def Purchase.setField (p : Purchase) (col : Str) (v : Value) : Option Purchase :=
  if col = "status".toList then
    match v with
    | .status st => some { p with Status := st }
    | _ => none
  else if col = "crypto_invoice_url".toList then
    match v with
    | .str u => some { p with CryptoInvoiceUrl := some u }
    | _ => none
  else if col = "crypto_invoice_id".toList then
    match v with
    | .int i => some { p with CryptoInvoiceID := some i }
    | _ => none
  else if col = "yookasa_url".toList then
    match v with
    | .str u => some { p with YookasaUrl := some u }
    | _ => none
  else if col = "yookasa_id".toList then
    match v with
    | .str i => some { p with YookasaID := some i }
    | _ => none
  else none

/-- All column assignments of one `UpdateFields` call. -/
def Purchase.setFields : Purchase → List (Str × Value) → Option Purchase
  | p, [] => some p
  | p, (col, v) :: rest =>
    match p.setField col v with
    | none => none
    | some p1 => Purchase.setFields p1 rest

/-- Modelled from the spec: `updateFields(id, partialFields)` of the purchase store
(`PurchaseRepository.UpdateFields`, in package `database`): one atomic update of the row
`id`.  On failure (`ok = false`, or an assignment that cannot be made) the store is
untouched and `none` is returned; a missing row is not an error. -/
def PurchaseRepository.UpdateFields (repo : PurchaseRepository) (ok : Bool) (id : Int)
    (updates : List (Str × Value)) : Option PurchaseRepository :=
  if ok then
    if id < 0 then some repo
    else
      match repo.rows.get? id.toNat with
      | none => some repo
      | some p =>
        match p.setFields updates with
        | none => none
        | some p1 => some ⟨repo.rows.set id.toNat p1⟩
  else none

/-- Whether the provider invoice id of a purchase is populated: the column of its own
invoice type. -/
def Purchase.hasInvoiceID (p : Purchase) : Bool :=
  match p.InvoiceType with
  | .Crypto => p.CryptoInvoiceID.isSome
  | .Yookasa => p.YookasaID.isSome

/-- Whether the payable URL of a purchase is populated: the column of its own invoice
type. -/
def Purchase.hasInvoiceURL (p : Purchase) : Bool :=
  match p.InvoiceType with
  | .Crypto => p.CryptoInvoiceUrl.isSome
  | .Yookasa => p.YookasaUrl.isSome

/-- The lifecycle invariant of a purchase: its status is `Pending` exactly when both
invoice-identifying fields are populated. -/
def Purchase.consistent (p : Purchase) : Prop :=
  p.Status = PurchaseStatus.Pending ↔ (p.hasInvoiceID = true ∧ p.hasInvoiceURL = true)

instance Purchase.decidableConsistent (p : Purchase) : Decidable p.consistent := by
  unfold Purchase.consistent
  exact inferInstance

/-- The request built for the crypto provider (`cryptopay.InvoiceRequest`). -/
structure InvoiceRequest where
  CurrencyType : Str
  Fiat : Str
  Amount : Str
  AcceptedAssets : Str
  Payload : Str
  Description : Str
  PaidBtnName : Str
  PaidBtnUrl : Str
  deriving DecidableEq

/-- What the crypto provider returns, as far as the handler reads it. -/
structure CryptoInvoice where
  BotInvoiceUrl : Str
  InvoiceID : Int
  deriving DecidableEq

/-- What the card provider returns, as far as the handler reads it
(`invoice.Confirmation.ConfirmationURL` and `invoice.ID`). -/
structure YookasaInvoice where
  ConfirmationURL : Str
  ID : Str
  deriving DecidableEq

/-- An inline keyboard button (`models.InlineKeyboardButton`); unset fields are empty. -/
structure InlineKeyboardButton where
  Text : Str
  CallbackData : Str := []
  URL : Str := []
  deriving DecidableEq

/-- An argument of `fmt.Sprintf`. -/
inductive Arg where
  | int (n : Int)
  | str (s : Str)
  deriving DecidableEq

/-- A call that a handler makes to a collaborator, in the order made. -/
inductive Event where
  | log (msg : Str)
  | purchaseCreate (p : Purchase)
  | purchaseUpdate (id : Int) (updates : List (Str × Value))
  | cryptoCreateInvoice (req : InvoiceRequest)
  | yookasaCreateInvoice (amount month customerId purchaseId : Int)
  | editMessageReplyMarkup (chatID messageID : Int)
      (keyboard : List (List InlineKeyboardButton))
  | editMessageText (chatID messageID : Int) (text : Str)
      (keyboard : List (List InlineKeyboardButton))
  deriving DecidableEq

/-- The configuration and the pure collaborators: `config.Price()`, `config.BotURL()`, the
translation lookup `GetText(langCode, key)`, `fmt.Sprintf` on a translated template, and
`time.Time.Format`. -/
structure Env where
  Price : Int
  BotURL : Str
  GetText : Str → Str → Str
  Sprintf : Str → List Arg → Str
  Format : Time → Str → Str

/-- The inbound callback event, as far as the handlers read it: the callback data, the
chat and message it came from and the language code of the sender. -/
structure Update where
  Data : Str
  ChatID : Int
  MessageID : Int
  LanguageCode : Str
  deriving DecidableEq

/-- The results of the calls that can fail during one handling: the customer lookup (a
customer or none, with or without an error), the purchase store calls, the invoice creation
of each provider, and the message edit. -/
structure Outcomes where
  customer : Option Customer
  findErr : Bool
  createOk : Bool
  cryptoInvoice : Option CryptoInvoice
  yookasaInvoice : Option YookasaInvoice
  updateOk : Bool
  sendOk : Bool
  deriving DecidableEq

/-- Go runtime panics. -/
inductive Panic where
  | nilPointerDereference
  deriving DecidableEq

/-! ## The handlers (handler.go, lines 148-414) -/

/-- The constant `CallbackStart`. -/
def CallbackStart : Str := "start".toList

/-- The handler `BuyCallbackHandler` (lines 148-176): the Buy screen, three duration buttons and the
pricing text. -/
def BuyCallbackHandler (env : Env) (sendOk : Bool) (update : Update) : List Event :=
  let langCode := update.LanguageCode
  let sent := Event.editMessageText update.ChatID update.MessageID
    (env.Sprintf (env.GetText langCode "pricing_info".toList)
      [Arg.int (calculatePrice env.Price 1),
       Arg.int (calculatePrice env.Price 2),
       Arg.int (calculatePrice env.Price 3)])
    [[{ Text := env.GetText langCode "month_1".toList,
        CallbackData := buildSellCallbackData 1 },
      { Text := env.GetText langCode "month_3".toList,
        CallbackData := buildSellCallbackData 3 },
      { Text := env.GetText langCode "month_6".toList,
        CallbackData := buildSellCallbackData 6 }],
     [{ Text := env.GetText langCode "back_button".toList, CallbackData := CallbackStart }]]
  if sendOk then [sent] else [sent, Event.log "Error sending buy message".toList]

/-- The handler `CryptoCallbackHandler` (lines 205-285): the purchase store after the handling and the
calls made. -/
def CryptoCallbackHandler (env : Env) (o : Outcomes) (update : Update)
    (repo : PurchaseRepository) : PurchaseRepository × List Event :=
  let callbackQuery := parseCallbackData update.Data
  match Atoi (callbackQuery.index "month".toList) with
  | none => (repo, [Event.log "Error getting month from query".toList])
  | some month =>
    let ev0 := if o.findErr then [Event.log "Error finding customer".toList] else []
    match o.customer with
    | none => (repo, ev0 ++ [Event.log "customer not exist".toList])
    | some customer =>
      let price := calculatePrice env.Price month
      let purchase : Purchase :=
        { InvoiceType := InvoiceType.Crypto
          Status := PurchaseStatus.New
          Amount := float64 price
          Currency := "RUB".toList
          CustomerID := customer.ID
          Month := month
          CryptoInvoiceUrl := none
          CryptoInvoiceID := none
          YookasaUrl := none
          YookasaID := none }
      let ev1 := ev0 ++ [Event.purchaseCreate purchase]
      match repo.Create o.createOk purchase with
      | (repo1, none) => (repo1, ev1 ++ [Event.log "Error creating purchase".toList])
      | (repo1, some purchaseId) =>
        let req : InvoiceRequest :=
          { CurrencyType := "fiat".toList
            Fiat := "RUB".toList
            Amount := itoa price
            AcceptedAssets := "USDT".toList
            Payload := "customerId=".toList ++ itoa update.ChatID ++
              "&purchaseId=".toList ++ itoa purchaseId
            Description := "Subscription on ".toList ++ itoa month ++ " month".toList
            PaidBtnName := "callback".toList
            PaidBtnUrl := env.BotURL }
        let ev2 := ev1 ++ [Event.cryptoCreateInvoice req]
        match o.cryptoInvoice with
        | none => (repo1, ev2 ++ [Event.log "Error creating invoice".toList])
        | some invoice =>
          let updates : List (Str × Value) :=
            [("crypto_invoice_url".toList, Value.str invoice.BotInvoiceUrl),
             ("crypto_invoice_id".toList, Value.int invoice.InvoiceID),
             ("status".toList, Value.status PurchaseStatus.Pending)]
          let ev3 := ev2 ++ [Event.purchaseUpdate purchaseId updates]
          match repo1.UpdateFields o.updateOk purchaseId updates with
          | none => (repo1, ev3 ++ [Event.log "Error updating purchase".toList])
          | some repo2 =>
            let langCode := update.LanguageCode
            let ev4 := ev3 ++ [Event.editMessageReplyMarkup update.ChatID update.MessageID
              [[{ Text := env.GetText langCode "pay_button".toList,
                  URL := invoice.BotInvoiceUrl },
                { Text := env.GetText langCode "back_button".toList,
                  CallbackData := buildSellCallbackData month }]]]
            (repo2,
              if o.sendOk then ev4 else ev4 ++ [Event.log "Error updating sell message".toList])

/-- The handler `YookasaCallbackHandler` (lines 287-355): the purchase store after the handling and the
calls made. -/
def YookasaCallbackHandler (env : Env) (o : Outcomes) (update : Update)
    (repo : PurchaseRepository) : PurchaseRepository × List Event :=
  let callbackQuery := parseCallbackData update.Data
  match Atoi (callbackQuery.index "month".toList) with
  | none => (repo, [Event.log "Error getting month from query".toList])
  | some month =>
    let ev0 := if o.findErr then [Event.log "Error finding customer".toList] else []
    match o.customer with
    | none => (repo, ev0 ++ [Event.log "customer not exist".toList])
    | some customer =>
      let price := calculatePrice env.Price month
      let purchase : Purchase :=
        { InvoiceType := InvoiceType.Yookasa
          Status := PurchaseStatus.New
          Amount := float64 price
          Currency := "RUB".toList
          CustomerID := customer.ID
          Month := month
          CryptoInvoiceUrl := none
          CryptoInvoiceID := none
          YookasaUrl := none
          YookasaID := none }
      let ev1 := ev0 ++ [Event.purchaseCreate purchase]
      match repo.Create o.createOk purchase with
      | (repo1, none) => (repo1, ev1 ++ [Event.log "Error creating purchase".toList])
      | (repo1, some purchaseId) =>
        let langCode := update.LanguageCode
        let ev2 := ev1 ++ [Event.yookasaCreateInvoice price month customer.ID purchaseId]
        match o.yookasaInvoice with
        | none => (repo1, ev2 ++ [Event.log "Error creating invoice".toList])
        | some invoice =>
          let updates : List (Str × Value) :=
            [("yookasa_url".toList, Value.str invoice.ConfirmationURL),
             ("yookasa_id".toList, Value.str invoice.ID),
             ("status".toList, Value.status PurchaseStatus.Pending)]
          let ev3 := ev2 ++ [Event.purchaseUpdate purchaseId updates]
          match repo1.UpdateFields o.updateOk purchaseId updates with
          | none => (repo1, ev3 ++ [Event.log "Error updating purchase".toList])
          | some repo2 =>
            let ev4 := ev3 ++ [Event.editMessageReplyMarkup update.ChatID update.MessageID
              [[{ Text := env.GetText langCode "pay_button".toList,
                  URL := invoice.ConfirmationURL },
                { Text := env.GetText langCode "back_button".toList,
                  CallbackData := buildSellCallbackData month }]]]
            (repo2,
              if o.sendOk then ev4 else ev4 ++ [Event.log "Error updating sell message".toList])

/-- The function `buildConnectText` (lines 386-414).  The customer is a pointer that may be nil; reading
`customer.ExpireAt` through a nil pointer is a runtime panic.  `now` is `time.Now()`. -/
def buildConnectText (env : Env) (now : Time) (customer : Option Customer) (langCode : Str) :
    Except Panic Str :=
  match customer with
  | none => Except.error Panic.nilPointerDereference
  | some customer =>
    match customer.ExpireAt with
    | some expireAt =>
      if now < expireAt then
        let formattedDate := env.Format expireAt "02.01.2006 15:04".toList
        let subscriptionActiveText := env.GetText langCode "subscription_active".toList
        let info := env.Sprintf subscriptionActiveText [Arg.str formattedDate]
        match customer.SubscriptionLink with
        | some link =>
          if link ≠ [] then
            let subscriptionLinkText := env.GetText langCode "subscription_link".toList
            Except.ok (info ++ env.Sprintf subscriptionLinkText [Arg.str link])
          else Except.ok info
        | none => Except.ok info
      else Except.ok (env.GetText langCode "no_subscription".toList)
    | none => Except.ok (env.GetText langCode "no_subscription".toList)

/-- The handler `ConnectCallbackHandler` (lines 357-384): the calls made, or the panic that ends the
handling.  `lookup` and `findErr` are the result of `FindByTelegramId`. -/
def ConnectCallbackHandler (env : Env) (now : Time) (lookup : Option Customer)
    (findErr sendOk : Bool) (update : Update) : Except Panic (List Event) :=
  let ev0 := if findErr then [Event.log "Error finding customer".toList] else []
  let ev1 := if lookup.isNone then ev0 ++ [Event.log "customer not exist".toList] else ev0
  let langCode := update.LanguageCode
  match buildConnectText env now lookup langCode with
  | Except.error e => Except.error e
  | Except.ok text =>
    let ev2 := ev1 ++ [Event.editMessageText update.ChatID update.MessageID text
      [[{ Text := env.GetText langCode "back_button".toList, CallbackData := CallbackStart }]]]
    Except.ok (if sendOk then ev2 else ev2 ++ [Event.log "Error sending connect message".toList])

/-- The purchase record that a checkout handler writes at creation (lines 227-234 and
308-315): status `New`, the amount converted from the price, no invoice column set. -/
def createdPurchase (ty : InvoiceType) (env : Env) (customer : Customer) (month : Int) :
    Purchase where
  InvoiceType := ty
  Status := PurchaseStatus.New
  Amount := float64 (calculatePrice env.Price month)
  Currency := "RUB".toList
  CustomerID := customer.ID
  Month := month
  CryptoInvoiceUrl := none
  CryptoInvoiceID := none
  YookasaUrl := none
  YookasaID := none

/-- Whether an event is an update issued to the purchase store. -/
def Event.isPurchaseUpdate : Event → Bool
  | Event.purchaseUpdate _ _ => true
  | _ => false

/-- Whether an event renders a screen (edits the message text or its keyboard). -/
def Event.isRender : Event → Bool
  | Event.editMessageReplyMarkup _ _ _ => true
  | Event.editMessageText _ _ _ _ => true
  | _ => false

/-! ## Concrete inputs used in the examples -/

/-- A configuration with unit price 100; translations are the keys themselves and a
template is followed by its arguments. -/
def sampleEnv : Env where
  Price := 100
  BotURL := "https://t.me/shop".toList
  GetText := fun _ key => key
  Sprintf := fun template args =>
    template ++ List.flatten (args.map fun a =>
      match a with
      | Arg.int n => ' ' :: itoa n
      | Arg.str t => ' ' :: t)
  Format := fun t _ => itoa t

/-- A customer whose internal identifier (7) differs from the Telegram chat id (1001), with
a subscription that expires at instant 50. -/
def sampleCustomer : Customer where
  ID := 7
  TelegramID := 1001
  Language := "en".toList
  ExpireAt := some 50
  SubscriptionLink := some "https://sub/abc".toList

/-- A callback event from chat 1001 carrying the given token. -/
def sampleUpdate (data : Str) : Update where
  Data := data
  ChatID := 1001
  MessageID := 5
  LanguageCode := "en".toList

/-- Every call succeeds and the customer of chat 1001 is found. -/
def sampleOutcomes : Outcomes where
  customer := some sampleCustomer
  findErr := false
  createOk := true
  cryptoInvoice := some { BotInvoiceUrl := "https://pay/c1".toList, InvoiceID := 42 }
  yookasaInvoice := some { ConfirmationURL := "https://pay/y1".toList, ID := "y-1".toList }
  updateOk := true
  sendOk := true

/-- A store holding one pending crypto purchase and one new card purchase. -/
def sampleRepo : PurchaseRepository where
  rows :=
    [{ InvoiceType := InvoiceType.Crypto
       Status := PurchaseStatus.Pending
       Amount := 100
       Currency := "RUB".toList
       CustomerID := 7
       Month := 1
       CryptoInvoiceUrl := some "https://pay/c0".toList
       CryptoInvoiceID := some 41
       YookasaUrl := none
       YookasaID := none },
     { InvoiceType := InvoiceType.Yookasa
       Status := PurchaseStatus.New
       Amount := 300
       Currency := "RUB".toList
       CustomerID := 7
       Month := 3
       CryptoInvoiceUrl := none
       CryptoInvoiceID := none
       YookasaUrl := none
       YookasaID := none }]

/-- The value that a piece `key=value` gives to `k`: the text after the first `=` of the
piece, when the text before it is `k`. -/
def pieceValue (k : Str) (piece : Str) : Option Str :=
  match Cut piece '=' with
  | some (a, b) => if a = k then some b else none
  | none => none

/-- The value given to `k` by the last piece that has key `k`. -/
def lastValue (k : Str) : List Str → Option Str
  | [] => none
  | piece :: rest =>
    match lastValue k rest with
    | some v => some v
    | none => pieceValue k piece

/-! ## Facts about the standard-library models -/

theorem Split_ne_nil (s : Str) (sep : Char) : Split s sep ≠ [] := by
  induction s with
  | nil => simp [Split]
  | cons c cs ih =>
    unfold Split
    split
    · simp
    · split <;> simp

theorem Split_of_not_mem (s : Str) (sep : Char) (h : sep ∉ s) : Split s sep = [s] := by
  induction s with
  | nil => simp [Split]
  | cons c cs ih =>
    have hc : c ≠ sep := fun e => h (by simp [e])
    have hcs : sep ∉ cs := fun e => h (by simp [e])
    simp [Split, hc, ih hcs]

theorem Split_append_sep (a r : Str) (sep : Char) (h : sep ∉ a) :
    Split (a ++ sep :: r) sep = a :: Split r sep := by
  induction a with
  | nil => simp [Split]
  | cons c cs ih =>
    have hc : c ≠ sep := fun e => h (by simp [e])
    have hcs : sep ∉ cs := fun e => h (by simp [e])
    simp [Split, hc, ih hcs]

theorem Split_head (s : Str) (sep : Char) :
    ∃ t, Split s sep = s.takeWhile (fun c => decide (c ≠ sep)) :: t := by
  induction s with
  | nil => exact ⟨[], by simp [Split]⟩
  | cons c cs ih =>
    obtain ⟨t, ht⟩ := ih
    by_cases hc : c = sep
    · exact ⟨Split cs sep, by simp [Split, hc]⟩
    · exact ⟨t, by simp [Split, hc, ht]⟩

theorem Cut_eq_none (s : Str) (sep : Char) (h : sep ∉ s) : Cut s sep = none := by
  induction s with
  | nil => simp [Cut]
  | cons c cs ih =>
    have hc : c ≠ sep := fun e => h (by simp [e])
    have hcs : sep ∉ cs := fun e => h (by simp [e])
    simp [Cut, hc, ih hcs]

theorem Cut_append_sep (a b : Str) (sep : Char) (h : sep ∉ a) :
    Cut (a ++ sep :: b) sep = some (a, b) := by
  induction a with
  | nil => simp [Cut]
  | cons c cs ih =>
    have hc : c ≠ sep := fun e => h (by simp [e])
    have hcs : sep ∉ cs := fun e => h (by simp [e])
    simp [Cut, hc, ih hcs]

theorem Cut_eq_some (s a b : Str) (sep : Char) (h : Cut s sep = some (a, b)) :
    s = a ++ sep :: b ∧ sep ∉ a := by
  induction s generalizing a with
  | nil => simp [Cut] at h
  | cons c cs ih =>
    unfold Cut at h
    split at h
    · rename_i hc
      simp only [Option.some.injEq, Prod.mk.injEq] at h
      obtain ⟨rfl, rfl⟩ := h
      simp [hc]
    · rename_i hc
      split at h
      · simp at h
      · rename_i a1 b1 hcut
        simp only [Option.some.injEq, Prod.mk.injEq] at h
        obtain ⟨rfl, rfl⟩ := h
        obtain ⟨h1, h2⟩ := ih a1 hcut
        refine ⟨by simp [h1], ?_⟩
        simp only [List.mem_cons, not_or]
        exact ⟨fun e => hc e.symm, h2⟩

theorem digitChar_toNat (d : Nat) (h : d < 10) : (digitChar d).toNat = 48 + d := by
  interval_cases d <;> rfl

theorem fmtDigits_mem (fuel u : Nat) (acc : Str) (c : Char) (h : c ∈ fmtDigits fuel u acc) :
    c ∈ acc ∨ (48 ≤ c.toNat ∧ c.toNat ≤ 57) := by
  induction fuel generalizing u acc with
  | zero => exact Or.inl (by simpa [fmtDigits] using h)
  | succ f ih =>
    unfold fmtDigits at h
    split at h
    · rename_i hu
      rcases List.mem_cons.mp h with rfl | h
      · right; rw [digitChar_toNat u hu]; omega
      · exact Or.inl h
    · rcases ih _ _ h with h | h
      · rcases List.mem_cons.mp h with rfl | h
        · right; rw [digitChar_toNat _ (Nat.mod_lt _ (by norm_num))]; omega
        · exact Or.inl h
      · exact Or.inr h

theorem fmtDigits_ne_nil (fuel u : Nat) (acc : Str) : fmtDigits (fuel + 1) u acc ≠ [] := by
  induction fuel generalizing u acc with
  | zero =>
    unfold fmtDigits
    split
    · simp
    · simp [fmtDigits]
  | succ f ih =>
    unfold fmtDigits
    split
    · simp
    · exact ih _ _

theorem parseDigits_fmtDigits (fuel u : Nat) (acc : Str) (h : u < fuel) :
    parseDigits 0 (fmtDigits fuel u acc) = parseDigits u acc := by
  induction fuel generalizing u acc with
  | zero => omega
  | succ f ih =>
    unfold fmtDigits
    split
    · rename_i hu
      have hd := digitChar_toNat u hu
      have hle : 48 + u ≤ 57 := by omega
      simp [parseDigits, hd, hle]
    · rename_i hu
      have hm : u % 10 < 10 := Nat.mod_lt _ (by norm_num)
      have hd := digitChar_toNat (u % 10) hm
      rw [ih (u / 10) _ (by omega)]
      simp only [parseDigits, hd]
      have e : u / 10 * 10 + (48 + u % 10 - 48) = u := by omega
      have hle : 48 + u % 10 ≤ 57 := by omega
      rw [e]
      simp [hle]

/-- Parsing the digits written for `u` gives back `u`. -/
theorem parseDigits_render (u : Nat) : parseDigits 0 (fmtDigits (u + 1) u []) = some u := by
  rw [parseDigits_fmtDigits _ _ _ (Nat.lt_succ_self u)]
  rfl

theorem render_digits (u : Nat) (c : Char) (h : c ∈ fmtDigits (u + 1) u []) :
    48 ≤ c.toNat ∧ c.toNat ≤ 57 := by
  rcases fmtDigits_mem _ _ _ _ h with h | h
  · simp at h
  · exact h

theorem itoa_mem (n : Int) (c : Char) (h : c ∈ itoa n) :
    c = '-' ∨ (48 ≤ c.toNat ∧ c.toNat ≤ 57) := by
  unfold itoa at h
  split at h
  · rcases List.mem_cons.mp h with rfl | h
    · exact Or.inl rfl
    · exact Or.inr (render_digits _ _ h)
  · exact Or.inr (render_digits _ _ h)

theorem itoa_not_mem (n : Int) (c : Char) (h1 : c ≠ '-') (h2 : c.toNat < 48 ∨ 57 < c.toNat) :
    c ∉ itoa n := by
  intro h
  rcases itoa_mem n c h with h | h
  · exact h1 h
  · omega

/-- Go's `strconv.Atoi` reads back what `%d` writes, for every value of Go's `int`. -/
theorem Atoi_itoa (n : Int) (lo : -(2 : Int) ^ 63 ≤ n) (hi : n < (2 : Int) ^ 63) :
    Atoi (itoa n) = some n := by
  unfold itoa
  split
  · rename_i hn
    have hne := fmtDigits_ne_nil n.natAbs n.natAbs []
    have hp := parseDigits_render n.natAbs
    have hle : n.natAbs ≤ 9223372036854775808 := by omega
    have hval : -|n| = n := by rw [abs_of_neg hn]; simp
    simp [Atoi, hne, hp, hle, hval]
  · rename_i hn
    have hne := fmtDigits_ne_nil n.natAbs n.natAbs []
    have hp := parseDigits_render n.natAbs
    have hlt : n.natAbs < 9223372036854775808 := by omega
    have hval : |n| = n := abs_of_nonneg (by omega)
    cases hs : fmtDigits (n.natAbs + 1) n.natAbs [] with
    | nil => exact absurd hs hne
    | cons c rest =>
      have hc : 48 ≤ c.toNat ∧ c.toNat ≤ 57 := render_digits n.natAbs c (by simp [hs])
      have h1 : c ≠ '-' := by
        intro e; subst e; revert hc; decide
      have h2 : c ≠ '+' := by
        intro e; subst e; revert hc; decide
      rw [hs] at hp
      simp [Atoi, h1, h2, hp, hlt, hval]

/-! ## Facts about the map model -/

theorem GoMap.get_append_single (m : GoMap) (k v k2 : Str) :
    GoMap.get (m ++ [(k, v)]) k2 =
      match GoMap.get m k2 with
      | some w => some w
      | none => if k = k2 then some v else none := by
  induction m with
  | nil => simp [GoMap.get]
  | cons e rest ih =>
    obtain ⟨a, b⟩ := e
    by_cases h : a = k2
    · simp [GoMap.get, h]
    · simp [GoMap.get, h, ih]

theorem GoMap.get_filter_ne (m : GoMap) (k k2 : Str) :
    GoMap.get (m.filter (fun e => !decide (e.1 = k))) k2 =
      if k = k2 then none else GoMap.get m k2 := by
  induction m with
  | nil => simp [GoMap.get]
  | cons e rest ih =>
    obtain ⟨a, b⟩ := e
    by_cases h : a = k
    · subst h
      by_cases h2 : a = k2
      · subst h2
        simpa using ih
      · simp [GoMap.get, h2, ih]
    · by_cases h2 : a = k2
      · subst h2
        have h3 : ¬ k = a := fun e => h e.symm
        simp [List.filter, h, GoMap.get, h3]
      · simp [List.filter, h, GoMap.get, h2, ih]

/-- Reading a map after an assignment. -/
theorem GoMap.get_set (m : GoMap) (k v k2 : Str) :
    GoMap.get (m.set k v) k2 = if k = k2 then some v else GoMap.get m k2 := by
  unfold GoMap.set
  rw [GoMap.get_append_single, GoMap.get_filter_ne]
  by_cases h : k = k2
  · simp [h]
  · simp only [h, if_false]
    cases GoMap.get m k2 <;> rfl

/-! ## Facts about the callback codec -/

theorem pieceValue_eq_some (k piece v : Str) :
    pieceValue k piece = some v ↔ piece = k ++ '=' :: v ∧ '=' ∉ k := by
  constructor
  · intro h
    unfold pieceValue at h
    split at h
    · rename_i a b hcut
      split at h
      · rename_i hak
        simp only [Option.some.injEq] at h
        subst hak; subst h
        exact Cut_eq_some _ _ _ _ hcut
      · simp at h
    · simp at h
  · rintro ⟨rfl, hk⟩
    simp [pieceValue, Cut_append_sep _ _ _ hk]

theorem pieceValue_eq_none (k piece : Str) :
    pieceValue k piece = none ↔ ∀ w, ¬ (piece = k ++ '=' :: w ∧ '=' ∉ k) := by
  constructor
  · intro h w hw
    rw [(pieceValue_eq_some k piece w).mpr hw] at h
    simp at h
  · intro h
    cases hv : pieceValue k piece with
    | none => rfl
    | some v => exact absurd ((pieceValue_eq_some k piece v).mp hv) (h v)

theorem get_parseParam (m : GoMap) (piece k : Str) :
    GoMap.get (parseParam m piece) k =
      match pieceValue k piece with
      | some v => some v
      | none => GoMap.get m k := by
  unfold parseParam SplitN2 pieceValue
  cases hcut : Cut piece '=' with
  | none => simp
  | some ab =>
    obtain ⟨a, b⟩ := ab
    by_cases h : a = k
    · simp [GoMap.get_set, h]
    · simp [GoMap.get_set, h]

theorem lastValue_cons (k piece : Str) (rest : List Str) :
    lastValue k (piece :: rest) =
      match lastValue k rest with
      | some v => some v
      | none => pieceValue k piece := rfl

theorem get_foldl_parseParam (pieces : List Str) (m : GoMap) (k : Str) :
    GoMap.get (pieces.foldl parseParam m) k =
      match lastValue k pieces with
      | some v => some v
      | none => GoMap.get m k := by
  induction pieces generalizing m with
  | nil => simp [lastValue]
  | cons piece rest ih =>
    rw [List.foldl_cons, ih, get_parseParam, lastValue_cons]
    cases lastValue k rest <;> rfl

theorem lastValue_eq_none (k : Str) (pieces : List Str) :
    lastValue k pieces = none ↔ ∀ q ∈ pieces, ∀ w, ¬ (q = k ++ '=' :: w ∧ '=' ∉ k) := by
  induction pieces with
  | nil => simp [lastValue]
  | cons piece rest ih =>
    rw [lastValue_cons]
    cases hl : lastValue k rest with
    | some v =>
      simp only [reduceCtorEq, false_iff]
      intro h
      have := ih.mpr (fun q hq => h q (List.mem_cons_of_mem _ hq))
      rw [hl] at this
      simp at this
    | none =>
      simp only
      rw [pieceValue_eq_none]
      constructor
      · intro h q hq
        rcases List.mem_cons.mp hq with rfl | hq
        · exact h
        · exact (ih.mp hl) q hq
      · intro h
        exact h piece (List.mem_cons_self _ _)

theorem lastValue_eq_some (k v : Str) (pieces : List Str) :
    lastValue k pieces = some v ↔
      ∃ pre post, pieces = pre ++ (k ++ '=' :: v) :: post ∧ '=' ∉ k ∧
        ∀ q ∈ post, ∀ w, q ≠ k ++ '=' :: w := by
  induction pieces with
  | nil => simp [lastValue]
  | cons piece rest ih =>
    rw [lastValue_cons]
    cases hl : lastValue k rest with
    | some v2 =>
      simp only [Option.some.injEq]
      constructor
      · rintro rfl
        obtain ⟨pre, post, h1, h2, h3⟩ := ih.mp hl
        exact ⟨piece :: pre, post, by simp [h1], h2, h3⟩
      · rintro ⟨pre, post, h1, h2, h3⟩
        cases pre with
        | nil =>
          simp only [List.nil_append, List.cons.injEq] at h1
          obtain ⟨-, rfl⟩ := h1
          have hn := (lastValue_eq_none k rest).mpr (fun q hq w hw => h3 q hq w hw.1)
          rw [hl] at hn
          simp at hn
        | cons p0 pre0 =>
          simp only [List.cons_append, List.cons.injEq] at h1
          obtain ⟨-, h1⟩ := h1
          have := ih.mpr ⟨pre0, post, h1, h2, h3⟩
          rw [hl] at this
          simpa using this
    | none =>
      simp only
      rw [pieceValue_eq_some]
      have hnone := (lastValue_eq_none k rest).mp hl
      constructor
      · rintro ⟨rfl, hk⟩
        exact ⟨[], rest, rfl, hk, fun q hq w hw => hnone q hq w ⟨hw, hk⟩⟩
      · rintro ⟨pre, post, h1, h2, h3⟩
        cases pre with
        | nil =>
          simp only [List.nil_append, List.cons.injEq] at h1
          exact ⟨h1.1, h2⟩
        | cons p0 pre0 =>
          simp only [List.cons_append, List.cons.injEq] at h1
          obtain ⟨-, h1⟩ := h1
          exact absurd ⟨rfl, h2⟩ (hnone (k ++ '=' :: v) (by simp [h1]) v)

theorem parseCallbackData_of_not_mem (data : Str) (h : '?' ∉ data) :
    parseCallbackData data = [] := by
  simp [parseCallbackData, Split_of_not_mem _ _ h]

theorem parseCallbackData_append (a rest : Str) (h : '?' ∉ a) :
    parseCallbackData (a ++ '?' :: rest) =
      (Split (rest.takeWhile (fun c => decide (c ≠ '?'))) '&').foldl parseParam [] := by
  obtain ⟨t, ht⟩ := Split_head rest '?'
  simp [parseCallbackData, Split_append_sep _ _ _ h, ht]

theorem takeWhile_of_not_mem (r : Str) (sep : Char) (h : sep ∉ r) :
    r.takeWhile (fun c => decide (c ≠ sep)) = r := by
  induction r with
  | nil => rfl
  | cons c cs ih =>
    have hc : c ≠ sep := fun e => h (by simp [e])
    have hcs : sep ∉ cs := fun e => h (by simp [e])
    simp only [List.takeWhile, hc, ne_eq, not_false_eq_true, decide_True, ih hcs]

theorem takeWhile_append_sep (seg tail : Str) (sep : Char) (h : sep ∉ seg) :
    (seg ++ sep :: tail).takeWhile (fun c => decide (c ≠ sep)) = seg := by
  induction seg with
  | nil => simp [List.takeWhile]
  | cons c cs ih =>
    have hc : c ≠ sep := fun e => h (by simp [e])
    have hcs : sep ∉ cs := fun e => h (by simp [e])
    rw [List.cons_append, List.takeWhile_cons, ih hcs]
    simp [hc]

/-! ## The claims about the callback codec -/

/-- C5, counterexample: on the token `a?k=v?x` the decoded value of `k` is `v`, not `v?x`,
and the result differs from the mapping decoded from the whole remainder `k=v?x`. -/
theorem parseCallbackData_later_question_dropped :
    GoMap.get (parseCallbackData "a?k=v?x".toList) "k".toList = some "v".toList ∧
    GoMap.get (parseCallbackData "a?k=v?x".toList) "k".toList ≠ some "v?x".toList ∧
    parseCallbackData "a?k=v?x".toList ≠
      (Split "k=v?x".toList '&').foldl parseParam [] := by
  decide

/-- C5, amended: `parseCallbackData` splits the token at every `?` and decodes only the
piece between the first and the second `?`.  A token without `?` gives the empty mapping; a
token `a?seg` gives the mapping decoded from `seg`; and a token `a?seg?tail` gives the same
mapping, whatever follows the second `?`. -/
theorem parseCallbackData_decodes_second_piece (a seg : Str)
    (ha : '?' ∉ a) (hseg : '?' ∉ seg) :
    parseCallbackData a = [] ∧
    parseCallbackData (a ++ '?' :: seg) = (Split seg '&').foldl parseParam [] ∧
    ∀ tail : Str,
      parseCallbackData (a ++ '?' :: (seg ++ '?' :: tail)) =
        (Split seg '&').foldl parseParam [] := by
  refine ⟨parseCallbackData_of_not_mem a ha, ?_, ?_⟩
  · rw [parseCallbackData_append a seg ha, takeWhile_of_not_mem seg '?' hseg]
  · intro tail
    rw [parseCallbackData_append a _ ha, takeWhile_append_sep seg tail '?' hseg]

/-- C5, amended, at the token `a?k=v` and its extensions `a?k=v?tail`. -/
theorem parseCallbackData_decodes_second_piece_witness :
    ('?' ∉ "a".toList ∧ '?' ∉ "k=v".toList) ∧
    (parseCallbackData "a".toList = [] ∧
     parseCallbackData ("a".toList ++ '?' :: "k=v".toList) =
       (Split "k=v".toList '&').foldl parseParam [] ∧
     ∀ tail : Str,
       parseCallbackData ("a".toList ++ '?' :: ("k=v".toList ++ '?' :: tail)) =
         (Split "k=v".toList '&').foldl parseParam []) :=
  ⟨⟨by decide, by decide⟩,
    parseCallbackData_decodes_second_piece "a".toList "k=v".toList (by decide) (by decide)⟩

/-- C6: for a token `a?r` with exactly one `?`, the result is the mapping built from the
pieces of `r` between `&`; the value of a key `k` is `v` exactly when `k=v` (with no `=` in
`k`, so split at the first `=`) is the last piece with key `k`; and `k` is present exactly
when some piece has the form `k=w` with no `=` in `k`. -/
theorem parseCallbackData_single_question (a r : Str) (ha : '?' ∉ a) (hr : '?' ∉ r) :
    parseCallbackData (a ++ '?' :: r) = (Split r '&').foldl parseParam [] ∧
    (∀ k v : Str, GoMap.get (parseCallbackData (a ++ '?' :: r)) k = some v ↔
      ∃ pre post, Split r '&' = pre ++ (k ++ '=' :: v) :: post ∧ '=' ∉ k ∧
        ∀ q ∈ post, ∀ w : Str, q ≠ k ++ '=' :: w) ∧
    (∀ k : Str, (GoMap.get (parseCallbackData (a ++ '?' :: r)) k).isSome = true ↔
      ∃ q ∈ Split r '&', ∃ w : Str, q = k ++ '=' :: w ∧ '=' ∉ k) := by
  have hp : parseCallbackData (a ++ '?' :: r) = (Split r '&').foldl parseParam [] := by
    rw [parseCallbackData_append a r ha, takeWhile_of_not_mem r '?' hr]
  have hget : ∀ k : Str, GoMap.get (parseCallbackData (a ++ '?' :: r)) k =
      lastValue k (Split r '&') := by
    intro k
    rw [hp, get_foldl_parseParam]
    cases lastValue k (Split r '&') <;> rfl
  refine ⟨hp, ?_, ?_⟩
  · intro k v
    rw [hget, lastValue_eq_some]
  · intro k
    rw [hget]
    constructor
    · intro h
      by_contra hcon
      have hn : lastValue k (Split r '&') = none := by
        rw [lastValue_eq_none]
        intro q hq w hw
        exact hcon ⟨q, hq, w, hw⟩
      rw [hn] at h
      simp at h
    · rintro ⟨q, hq, w, hw⟩
      cases hl : lastValue k (Split r '&') with
      | some v => rfl
      | none => exact absurd hw ((lastValue_eq_none k _).mp hl q hq w)

/-- C6 at the token `sell?month=3&x&month=6=7`: the last `month` piece wins and its value
keeps the later `=`. -/
theorem parseCallbackData_single_question_witness :
    ('?' ∉ "sell".toList ∧ '?' ∉ "month=3&x&month=6=7".toList) ∧
    GoMap.get (parseCallbackData ("sell".toList ++ '?' :: "month=3&x&month=6=7".toList))
      "month".toList = some "6=7".toList :=
  ⟨⟨by decide, by decide⟩,
    ((parseCallbackData_single_question "sell".toList "month=3&x&month=6=7".toList
        (by decide) (by decide)).2.1 "month".toList "6=7".toList).mpr
      ⟨["month=3".toList, "x".toList], [], by decide, by decide, by simp⟩⟩

/-- C7: for every value `n` of Go's `int`, `buildSellCallbackData n` is `sell?month=`
followed by the decimal rendering of `n`, decoding it gives exactly the one-entry mapping
from `month` to that rendering, and `strconv.Atoi` of the decoded value returns `n`. -/
theorem buildSellCallbackData_roundtrip (n : Int)
    (lo : -(2 : Int) ^ 63 ≤ n) (hi : n < (2 : Int) ^ 63) :
    buildSellCallbackData n = "sell?month=".toList ++ itoa n ∧
    parseCallbackData (buildSellCallbackData n) = [("month".toList, itoa n)] ∧
    Atoi (GoMap.index (parseCallbackData (buildSellCallbackData n)) "month".toList) =
      some n := by
  have hq : '?' ∉ "month=".toList ++ itoa n := by
    simp only [List.mem_append, not_or]
    exact ⟨by decide, itoa_not_mem n '?' (by decide) (by decide)⟩
  have hamp : '&' ∉ "month=".toList ++ itoa n := by
    simp only [List.mem_append, not_or]
    exact ⟨by decide, itoa_not_mem n '&' (by decide) (by decide)⟩
  have hshape : buildSellCallbackData n =
      "sell".toList ++ '?' :: ("month=".toList ++ itoa n) := rfl
  have hcut : Cut ("month=".toList ++ itoa n) '=' = some ("month".toList, itoa n) :=
    Cut_append_sep "month".toList (itoa n) '=' (by decide)
  have hparse : parseCallbackData (buildSellCallbackData n) = [("month".toList, itoa n)] := by
    have hpp : parseParam [] ("month=".toList ++ itoa n) = [("month".toList, itoa n)] := by
      unfold parseParam SplitN2
      rw [hcut]
      rfl
    rw [hshape, parseCallbackData_append _ _ (by decide), takeWhile_of_not_mem _ _ hq,
      Split_of_not_mem _ _ hamp, List.foldl_cons, List.foldl_nil, hpp]
  refine ⟨rfl, hparse, ?_⟩
  rw [hparse]
  have : GoMap.index [("month".toList, itoa n)] "month".toList = itoa n := by
    simp [GoMap.index, GoMap.get]
  rw [this]
  exact Atoi_itoa n lo hi

/-- C7 at `n = 3`: the token is `sell?month=3` and the decoded `month` is `3`. -/
theorem buildSellCallbackData_roundtrip_witness :
    (-(2 : Int) ^ 63 ≤ 3 ∧ (3 : Int) < (2 : Int) ^ 63) ∧
    (buildSellCallbackData 3 = "sell?month=".toList ++ itoa 3 ∧
     parseCallbackData (buildSellCallbackData 3) = [("month".toList, itoa 3)] ∧
     Atoi (GoMap.index (parseCallbackData (buildSellCallbackData 3)) "month".toList) =
       some 3) ∧
    buildSellCallbackData 3 = "sell?month=3".toList ∧
    GoMap.get (parseCallbackData "sell?month=3".toList) "month".toList = some "3".toList :=
  ⟨⟨by decide, by decide⟩,
    buildSellCallbackData_roundtrip 3 (by decide) (by decide), by decide, by decide⟩

/-! ## Facts about the arithmetic and the purchase store -/

theorem wrap64_of_range (x : Int) (lo : -(2 : Int) ^ 63 ≤ x) (hi : x < (2 : Int) ^ 63) :
    wrap64 x = x := by
  unfold wrap64
  norm_num at lo hi ⊢
  omega

theorem float64_exact (x : Int) (h : x.natAbs ≤ 2 ^ 53) : float64 x = x := by
  rcases Nat.lt_or_eq_of_le h with h | h
  · have h1 : x.natAbs < 9007199254740992 := by norm_num at h; exact h
    have hs : float64Shift 64 x.natAbs = 0 := by simp [float64Shift, h1]
    have hup : (decide (1 < 2 * (x.natAbs % 1)) ||
        (decide (2 * (x.natAbs % 1) = 1) && decide (x.natAbs % 2 = 1))) = false := by
      simp [Nat.mod_one]
    unfold float64
    simp only [hs, pow_zero, Nat.div_one, mul_one, hup, Bool.false_eq_true, if_false]
    split <;> omega
  · have hx : x = 2 ^ 53 ∨ x = -(2 ^ 53) := by
      norm_num at h ⊢
      omega
    rcases hx with rfl | rfl <;> decide

theorem UpdateFields_created (rows : List Purchase) (p p1 : Purchase)
    (updates : List (Str × Value)) (h : p.setFields updates = some p1) :
    PurchaseRepository.UpdateFields ⟨rows ++ [p]⟩ true (rows.length : Int) updates =
      some ⟨rows ++ [p1]⟩ := by
  have hneg : ¬ ((rows.length : Int) < 0) := by omega
  simp [PurchaseRepository.UpdateFields, hneg, h]

/-! ## The claims about the screens -/

/-- C4, the code at unit price 100: the three values that `BuyCallbackHandler` formats into
the pricing text are the prices of 1, 2 and 3 months (100, 200, 300), not those of the
durations 1, 3 and 6 offered by the buttons (100, 300, 600). -/
theorem BuyCallbackHandler_prices_one_two_three :
    BuyCallbackHandler sampleEnv true (sampleUpdate "buy".toList) =
      [Event.editMessageText 1001 5 "pricing_info 100 200 300".toList
        [[{ Text := "month_1".toList, CallbackData := "sell?month=1".toList },
          { Text := "month_3".toList, CallbackData := "sell?month=3".toList },
          { Text := "month_6".toList, CallbackData := "sell?month=6".toList }],
         [{ Text := "back_button".toList, CallbackData := "start".toList }]]] ∧
    [calculatePrice 100 1, calculatePrice 100 2, calculatePrice 100 3] ≠
      [calculatePrice 100 1, calculatePrice 100 3, calculatePrice 100 6] := by
  decide

/-- C10, the code when the customer lookup yields no customer: `ConnectCallbackHandler`
logs and goes on to `buildConnectText`, which reads `customer.ExpireAt` through the nil
pointer; the handling ends in a panic instead of completing. -/
theorem ConnectCallbackHandler_absent_customer_panics (env : Env) (now : Time)
    (findErr sendOk : Bool) (update : Update) :
    ConnectCallbackHandler env now none findErr sendOk update =
      Except.error Panic.nilPointerDereference := by
  simp [ConnectCallbackHandler, buildConnectText]

/-- C8: for an existing customer, `buildConnectText` returns the `subscription_active`
template formatted with the expiry in layout `02.01.2006 15:04` when the expiry is present
and `now` is strictly before it, followed by the `subscription_link` template formatted with
the link exactly when the link is present and non-empty; and it returns exactly the
`no_subscription` template when the expiry is absent or not after `now`, whatever the
link. -/
theorem buildConnectText_existing_customer (env : Env) (now : Time) (c : Customer)
    (langCode : Str) :
    (∀ t link, c.ExpireAt = some t → now < t → c.SubscriptionLink = some link → link ≠ [] →
      buildConnectText env now (some c) langCode = Except.ok
        (env.Sprintf (env.GetText langCode "subscription_active".toList)
            [Arg.str (env.Format t "02.01.2006 15:04".toList)] ++
          env.Sprintf (env.GetText langCode "subscription_link".toList) [Arg.str link])) ∧
    (∀ t, c.ExpireAt = some t → now < t →
      (c.SubscriptionLink = none ∨ c.SubscriptionLink = some []) →
      buildConnectText env now (some c) langCode = Except.ok
        (env.Sprintf (env.GetText langCode "subscription_active".toList)
          [Arg.str (env.Format t "02.01.2006 15:04".toList)])) ∧
    ((c.ExpireAt = none ∨ ∃ t, c.ExpireAt = some t ∧ ¬ now < t) →
      buildConnectText env now (some c) langCode =
        Except.ok (env.GetText langCode "no_subscription".toList)) := by
  refine ⟨?_, ?_, ?_⟩
  · intro t link ht hlt hl hne
    simp [buildConnectText, ht, hlt, hl, hne]
  · intro t ht hlt hl
    rcases hl with hl | hl <;> simp [buildConnectText, ht, hlt, hl]
  · intro h
    rcases h with h | ⟨t, ht, hlt⟩
    · simp [buildConnectText, h]
    · simp [buildConnectText, ht, hlt]

/-- C8 on the sample customer (expiry 50, link present): before the expiry the text is the
active template with the expiry and the link, at the expiry it is the `no_subscription`
template. -/
theorem buildConnectText_existing_customer_witness :
    buildConnectText sampleEnv 49 (some sampleCustomer) "en".toList =
      Except.ok ("subscription_active 50".toList ++
        "subscription_link https://sub/abc".toList) ∧
    buildConnectText sampleEnv 50 (some sampleCustomer) "en".toList =
      Except.ok "no_subscription".toList :=
  ⟨(buildConnectText_existing_customer sampleEnv 49 sampleCustomer "en".toList).1
      50 "https://sub/abc".toList rfl (by decide) rfl (by decide),
    (buildConnectText_existing_customer sampleEnv 50 sampleCustomer "en".toList).2.2
      (Or.inr ⟨50, rfl, by decide⟩)⟩

/-- C9, the code on the sample customer (internal id 7, Telegram chat id 1001) and an empty
store: the crypto handler puts the chat id 1001 into the payload sent to its provider, the
card handler passes the internal id 7 to its provider. -/
theorem checkout_customer_identifiers_differ :
    Event.cryptoCreateInvoice
        { CurrencyType := "fiat".toList
          Fiat := "RUB".toList
          Amount := "300".toList
          AcceptedAssets := "USDT".toList
          Payload := "customerId=1001&purchaseId=0".toList
          Description := "Subscription on 3 month".toList
          PaidBtnName := "callback".toList
          PaidBtnUrl := "https://t.me/shop".toList } ∈
      (CryptoCallbackHandler sampleEnv sampleOutcomes
        (sampleUpdate "crypto?month=3".toList) ⟨[]⟩).2 ∧
    Event.yookasaCreateInvoice 300 3 7 0 ∈
      (YookasaCallbackHandler sampleEnv sampleOutcomes
        (sampleUpdate "card?month=3".toList) ⟨[]⟩).2 ∧
    Event.yookasaCreateInvoice 300 3 1001 0 ∉
      (YookasaCallbackHandler sampleEnv sampleOutcomes
        (sampleUpdate "card?month=3".toList) ⟨[]⟩).2 := by
  decide

/-! ## The claims about the checkout handlers -/

theorem Crypto_success (env : Env) (o : Outcomes) (update : Update)
    (repo : PurchaseRepository) (m : Int) (c : Customer) (inv : CryptoInvoice)
    (hm : Atoi ((parseCallbackData update.Data).index "month".toList) = some m)
    (hc : o.customer = some c) (hcreate : o.createOk = true)
    (hinv : o.cryptoInvoice = some inv) (hupd : o.updateOk = true) :
    (CryptoCallbackHandler env o update repo).1.rows =
      repo.rows ++ [{ createdPurchase InvoiceType.Crypto env c m with
        Status := PurchaseStatus.Pending
        CryptoInvoiceUrl := some inv.BotInvoiceUrl
        CryptoInvoiceID := some inv.InvoiceID }] ∧
    Event.editMessageReplyMarkup update.ChatID update.MessageID
        [[{ Text := env.GetText update.LanguageCode "pay_button".toList,
            URL := inv.BotInvoiceUrl },
          { Text := env.GetText update.LanguageCode "back_button".toList,
            CallbackData := buildSellCallbackData m }]] ∈
      (CryptoCallbackHandler env o update repo).2 := by
  have hu := UpdateFields_created repo.rows (createdPurchase InvoiceType.Crypto env c m)
    { createdPurchase InvoiceType.Crypto env c m with
        Status := PurchaseStatus.Pending
        CryptoInvoiceUrl := some inv.BotInvoiceUrl
        CryptoInvoiceID := some inv.InvoiceID }
    [("crypto_invoice_url".toList, Value.str inv.BotInvoiceUrl),
     ("crypto_invoice_id".toList, Value.int inv.InvoiceID),
     ("status".toList, Value.status PurchaseStatus.Pending)] rfl
  unfold createdPurchase at hu
  unfold CryptoCallbackHandler
  simp only [hm, hc, hcreate, hinv, hupd, PurchaseRepository.Create, if_true, hu]
  constructor
  · rfl
  · cases o.sendOk <;> simp

theorem Yookasa_success (env : Env) (o : Outcomes) (update : Update)
    (repo : PurchaseRepository) (m : Int) (c : Customer) (inv : YookasaInvoice)
    (hm : Atoi ((parseCallbackData update.Data).index "month".toList) = some m)
    (hc : o.customer = some c) (hcreate : o.createOk = true)
    (hinv : o.yookasaInvoice = some inv) (hupd : o.updateOk = true) :
    (YookasaCallbackHandler env o update repo).1.rows =
      repo.rows ++ [{ createdPurchase InvoiceType.Yookasa env c m with
        Status := PurchaseStatus.Pending
        YookasaUrl := some inv.ConfirmationURL
        YookasaID := some inv.ID }] ∧
    Event.editMessageReplyMarkup update.ChatID update.MessageID
        [[{ Text := env.GetText update.LanguageCode "pay_button".toList,
            URL := inv.ConfirmationURL },
          { Text := env.GetText update.LanguageCode "back_button".toList,
            CallbackData := buildSellCallbackData m }]] ∈
      (YookasaCallbackHandler env o update repo).2 := by
  have hu := UpdateFields_created repo.rows (createdPurchase InvoiceType.Yookasa env c m)
    { createdPurchase InvoiceType.Yookasa env c m with
        Status := PurchaseStatus.Pending
        YookasaUrl := some inv.ConfirmationURL
        YookasaID := some inv.ID }
    [("yookasa_url".toList, Value.str inv.ConfirmationURL),
     ("yookasa_id".toList, Value.str inv.ID),
     ("status".toList, Value.status PurchaseStatus.Pending)] rfl
  unfold createdPurchase at hu
  unfold YookasaCallbackHandler
  simp only [hm, hc, hcreate, hinv, hupd, PurchaseRepository.Create, if_true, hu]
  constructor
  · rfl
  · cases o.sendOk <;> simp

theorem quiet_of_all (events : List Event)
    (h : events.all (fun e => !e.isPurchaseUpdate && !e.isRender) = true) :
    ∀ e ∈ events, e.isPurchaseUpdate = false ∧ e.isRender = false := by
  intro e he
  have := List.all_eq_true.mp h e he
  simpa using this

theorem Crypto_provider_failure (env : Env) (o : Outcomes) (update : Update)
    (repo : PurchaseRepository) (m : Int) (c : Customer)
    (hm : Atoi ((parseCallbackData update.Data).index "month".toList) = some m)
    (hc : o.customer = some c) (hcreate : o.createOk = true)
    (hinv : o.cryptoInvoice = none) :
    (CryptoCallbackHandler env o update repo).1.rows =
      repo.rows ++ [createdPurchase InvoiceType.Crypto env c m] ∧
    ∀ e ∈ (CryptoCallbackHandler env o update repo).2,
      e.isPurchaseUpdate = false ∧ e.isRender = false := by
  unfold CryptoCallbackHandler
  simp only [hm, hc, hcreate, hinv, PurchaseRepository.Create, if_true]
  constructor
  · rfl
  · exact quiet_of_all _ (by cases o.findErr <;> rfl)

theorem Yookasa_provider_failure (env : Env) (o : Outcomes) (update : Update)
    (repo : PurchaseRepository) (m : Int) (c : Customer)
    (hm : Atoi ((parseCallbackData update.Data).index "month".toList) = some m)
    (hc : o.customer = some c) (hcreate : o.createOk = true)
    (hinv : o.yookasaInvoice = none) :
    (YookasaCallbackHandler env o update repo).1.rows =
      repo.rows ++ [createdPurchase InvoiceType.Yookasa env c m] ∧
    ∀ e ∈ (YookasaCallbackHandler env o update repo).2,
      e.isPurchaseUpdate = false ∧ e.isRender = false := by
  unfold YookasaCallbackHandler
  simp only [hm, hc, hcreate, hinv, PurchaseRepository.Create, if_true]
  constructor
  · rfl
  · exact quiet_of_all _ (by cases o.findErr <;> rfl)

/-- The store after `CryptoCallbackHandler`: unchanged, or extended by the purchase as
created, or extended by that purchase made pending with both crypto invoice columns set. -/
theorem Crypto_rows_cases (env : Env) (o : Outcomes) (update : Update)
    (repo : PurchaseRepository) :
    (CryptoCallbackHandler env o update repo).1.rows = repo.rows ∨
    (∃ m c, (CryptoCallbackHandler env o update repo).1.rows =
      repo.rows ++ [createdPurchase InvoiceType.Crypto env c m]) ∨
    (∃ (m : Int) (c : Customer) (inv : CryptoInvoice),
      (CryptoCallbackHandler env o update repo).1.rows =
      repo.rows ++ [{ createdPurchase InvoiceType.Crypto env c m with
        Status := PurchaseStatus.Pending
        CryptoInvoiceUrl := some inv.BotInvoiceUrl
        CryptoInvoiceID := some inv.InvoiceID }]) := by
  cases hm : Atoi ((parseCallbackData update.Data).index "month".toList) with
  | none => left; simp only [CryptoCallbackHandler, hm]
  | some m =>
    cases hc : o.customer with
    | none => left; simp only [CryptoCallbackHandler, hm, hc]
    | some c =>
      cases hcreate : o.createOk with
      | false =>
        left
        simp only [CryptoCallbackHandler, hm, hc, hcreate, PurchaseRepository.Create]
        rfl
      | true =>
        cases hinv : o.cryptoInvoice with
        | none =>
          right; left
          exact ⟨m, c, (Crypto_provider_failure env o update repo m c hm hc hcreate hinv).1⟩
        | some inv =>
          cases hupd : o.updateOk with
          | false =>
            right; left
            refine ⟨m, c, ?_⟩
            simp only [CryptoCallbackHandler, hm, hc, hcreate, hinv, hupd,
              PurchaseRepository.Create, PurchaseRepository.UpdateFields, if_true]
            rfl
          | true =>
            right; right
            exact ⟨m, c, inv,
              (Crypto_success env o update repo m c inv hm hc hcreate hinv hupd).1⟩

/-- The store after `YookasaCallbackHandler`: unchanged, or extended by the purchase as
created, or extended by that purchase made pending with both card invoice columns set. -/
theorem Yookasa_rows_cases (env : Env) (o : Outcomes) (update : Update)
    (repo : PurchaseRepository) :
    (YookasaCallbackHandler env o update repo).1.rows = repo.rows ∨
    (∃ m c, (YookasaCallbackHandler env o update repo).1.rows =
      repo.rows ++ [createdPurchase InvoiceType.Yookasa env c m]) ∨
    (∃ (m : Int) (c : Customer) (inv : YookasaInvoice),
      (YookasaCallbackHandler env o update repo).1.rows =
      repo.rows ++ [{ createdPurchase InvoiceType.Yookasa env c m with
        Status := PurchaseStatus.Pending
        YookasaUrl := some inv.ConfirmationURL
        YookasaID := some inv.ID }]) := by
  cases hm : Atoi ((parseCallbackData update.Data).index "month".toList) with
  | none => left; simp only [YookasaCallbackHandler, hm]
  | some m =>
    cases hc : o.customer with
    | none => left; simp only [YookasaCallbackHandler, hm, hc]
    | some c =>
      cases hcreate : o.createOk with
      | false =>
        left
        simp only [YookasaCallbackHandler, hm, hc, hcreate, PurchaseRepository.Create]
        rfl
      | true =>
        cases hinv : o.yookasaInvoice with
        | none =>
          right; left
          exact ⟨m, c, (Yookasa_provider_failure env o update repo m c hm hc hcreate hinv).1⟩
        | some inv =>
          cases hupd : o.updateOk with
          | false =>
            right; left
            refine ⟨m, c, ?_⟩
            simp only [YookasaCallbackHandler, hm, hc, hcreate, hinv, hupd,
              PurchaseRepository.Create, PurchaseRepository.UpdateFields, if_true]
            rfl
          | true =>
            right; right
            exact ⟨m, c, inv,
              (Yookasa_success env o update repo m c inv hm hc hcreate hinv hupd).1⟩

theorem getElem?_append_single (l : List Purchase) (a p : Purchase) (i : Nat)
    (h : (l ++ [a])[i]? = some p) : l[i]? = some p ∨ p = a := by
  by_cases hi : i < l.length
  · rw [List.getElem?_append_left hi] at h
    exact Or.inl h
  · rw [List.getElem?_append_right (Nat.le_of_not_lt hi)] at h
    right
    cases hd : i - l.length with
    | zero =>
      rw [hd] at h
      simpa using h.symm
    | succ k =>
      rw [hd] at h
      simp at h

theorem consistent_append (rows : List Purchase) (a : Purchase)
    (h : ∀ p ∈ rows, p.consistent) (ha : a.consistent) :
    ∀ p ∈ rows ++ [a], p.consistent := by
  intro p hp
  rcases List.mem_append.mp hp with hp | hp
  · exact h p hp
  · rw [List.mem_singleton.mp hp]
    exact ha

theorem createdPurchase_consistent (ty : InvoiceType) (env : Env) (c : Customer) (m : Int) :
    (createdPurchase ty env c m).consistent := by
  cases ty <;> simp [Purchase.consistent, createdPurchase, Purchase.hasInvoiceID]

/-- C1: both checkout handlers preserve the lifecycle invariant of the purchase store.  If
every purchase of the store has status `Pending` exactly when both of its invoice-identifying
fields are populated, then so has every purchase of the store after the handler returns,
for every token, lookup result and outcome of each call. -/
theorem checkout_preserves_consistency (env : Env) (o : Outcomes) (update : Update)
    (repo : PurchaseRepository) (h : ∀ p ∈ repo.rows, p.consistent) :
    (∀ p ∈ (CryptoCallbackHandler env o update repo).1.rows, p.consistent) ∧
    (∀ p ∈ (YookasaCallbackHandler env o update repo).1.rows, p.consistent) := by
  constructor
  · rcases Crypto_rows_cases env o update repo with hr | ⟨m, c, hr⟩ | ⟨m, c, inv, hr⟩
    · rw [hr]; exact h
    · rw [hr]; exact consistent_append _ _ h (createdPurchase_consistent _ env c m)
    · rw [hr]
      exact consistent_append _ _ h
        (by simp [Purchase.consistent, createdPurchase, Purchase.hasInvoiceID,
          Purchase.hasInvoiceURL])
  · rcases Yookasa_rows_cases env o update repo with hr | ⟨m, c, hr⟩ | ⟨m, c, inv, hr⟩
    · rw [hr]; exact h
    · rw [hr]; exact consistent_append _ _ h (createdPurchase_consistent _ env c m)
    · rw [hr]
      exact consistent_append _ _ h
        (by simp [Purchase.consistent, createdPurchase, Purchase.hasInvoiceID,
          Purchase.hasInvoiceURL])

/-- C1 on the sample store (one pending and one new purchase), with every call
succeeding. -/
theorem checkout_preserves_consistency_witness :
    (∀ p ∈ sampleRepo.rows, p.consistent) ∧
    (∀ p ∈ (CryptoCallbackHandler sampleEnv sampleOutcomes
        (sampleUpdate "crypto?month=3".toList) sampleRepo).1.rows, p.consistent) ∧
    (∀ p ∈ (YookasaCallbackHandler sampleEnv sampleOutcomes
        (sampleUpdate "crypto?month=3".toList) sampleRepo).1.rows, p.consistent) :=
  ⟨by decide,
    checkout_preserves_consistency sampleEnv sampleOutcomes
      (sampleUpdate "crypto?month=3".toList) sampleRepo (by decide)⟩

/-- C2, counterexample: with unit price 100 the token `crypto?month=4611686018427387904`
gives a pending purchase of amount 0, because `100 * 2 ^ 62` overflows Go's `int`; and with
unit price 1 the token `crypto?month=9007199254740993` gives a pending purchase of amount
`9007199254740992`, because the amount is stored as a float64.  In neither case is the
amount `unitPrice * m`. -/
theorem checkout_amount_not_product :
    ((CryptoCallbackHandler sampleEnv sampleOutcomes
        (sampleUpdate "crypto?month=4611686018427387904".toList) ⟨[]⟩).1.rows.map
      fun p => (p.Status, p.Month, p.Amount)) =
        [(PurchaseStatus.Pending, 4611686018427387904, 0)] ∧
    sampleEnv.Price * 4611686018427387904 ≠ 0 ∧
    ((CryptoCallbackHandler { sampleEnv with Price := 1 } sampleOutcomes
        (sampleUpdate "crypto?month=9007199254740993".toList) ⟨[]⟩).1.rows.map
      fun p => (p.Status, p.Month, p.Amount)) =
        [(PurchaseStatus.Pending, 9007199254740993, 9007199254740992)] := by
  decide

/-- C2, amended: when the month parameter parses to `m`, the customer exists and purchase
creation, invoice creation and the purchase update all succeed, each checkout handler has
added exactly one purchase to the store, with status `Pending`, the invoice type of the
handler, duration `m`, currency `RUB`, the payable URL and invoice id returned by the
provider, and amount `float64 (calculatePrice m)`, where `calculatePrice m` is
`unitPrice * m` reduced to Go's 64-bit `int`; the amount is exactly `unitPrice * m`
whenever that product lies between `-2 ^ 53` and `2 ^ 53`.  The pay button of the rendered
keyboard carries exactly the payable URL. -/
theorem checkout_success (env : Env) (o : Outcomes) (update : Update)
    (repo : PurchaseRepository) (m : Int) (c : Customer) (ci : CryptoInvoice)
    (yi : YookasaInvoice)
    (hm : Atoi ((parseCallbackData update.Data).index "month".toList) = some m)
    (hc : o.customer = some c) (hcreate : o.createOk = true)
    (hci : o.cryptoInvoice = some ci) (hyi : o.yookasaInvoice = some yi)
    (hupd : o.updateOk = true) :
    ((CryptoCallbackHandler env o update repo).1.rows =
        repo.rows ++
          [{ InvoiceType := InvoiceType.Crypto
             Status := PurchaseStatus.Pending
             Amount := float64 (calculatePrice env.Price m)
             Currency := "RUB".toList
             CustomerID := c.ID
             Month := m
             CryptoInvoiceUrl := some ci.BotInvoiceUrl
             CryptoInvoiceID := some ci.InvoiceID
             YookasaUrl := none
             YookasaID := none }] ∧
      Event.editMessageReplyMarkup update.ChatID update.MessageID
          [[{ Text := env.GetText update.LanguageCode "pay_button".toList,
              URL := ci.BotInvoiceUrl },
            { Text := env.GetText update.LanguageCode "back_button".toList,
              CallbackData := buildSellCallbackData m }]] ∈
        (CryptoCallbackHandler env o update repo).2) ∧
    ((YookasaCallbackHandler env o update repo).1.rows =
        repo.rows ++
          [{ InvoiceType := InvoiceType.Yookasa
             Status := PurchaseStatus.Pending
             Amount := float64 (calculatePrice env.Price m)
             Currency := "RUB".toList
             CustomerID := c.ID
             Month := m
             CryptoInvoiceUrl := none
             CryptoInvoiceID := none
             YookasaUrl := some yi.ConfirmationURL
             YookasaID := some yi.ID }] ∧
      Event.editMessageReplyMarkup update.ChatID update.MessageID
          [[{ Text := env.GetText update.LanguageCode "pay_button".toList,
              URL := yi.ConfirmationURL },
            { Text := env.GetText update.LanguageCode "back_button".toList,
              CallbackData := buildSellCallbackData m }]] ∈
        (YookasaCallbackHandler env o update repo).2) ∧
    calculatePrice env.Price m = wrap64 (env.Price * m) ∧
    (-(2 : Int) ^ 53 ≤ env.Price * m → env.Price * m ≤ (2 : Int) ^ 53 →
      float64 (calculatePrice env.Price m) = env.Price * m) := by
  refine ⟨Crypto_success env o update repo m c ci hm hc hcreate hci hupd,
    Yookasa_success env o update repo m c yi hm hc hcreate hyi hupd, rfl, ?_⟩
  intro lo hi
  have hw : calculatePrice env.Price m = env.Price * m := by
    unfold calculatePrice
    apply wrap64_of_range
    · norm_num at lo ⊢; omega
    · norm_num at hi ⊢; omega
  rw [hw]
  apply float64_exact
  norm_num at lo hi ⊢
  omega

/-- C2, amended, on the sample inputs: duration 3 at unit price 100 gives one pending
purchase of amount 300 in the empty store, and the pay button carries the provider's URL. -/
theorem checkout_success_witness :
    (CryptoCallbackHandler sampleEnv sampleOutcomes
        (sampleUpdate "crypto?month=3".toList) ⟨[]⟩).1.rows =
      [{ InvoiceType := InvoiceType.Crypto
         Status := PurchaseStatus.Pending
         Amount := float64 (calculatePrice 100 3)
         Currency := "RUB".toList
         CustomerID := 7
         Month := 3
         CryptoInvoiceUrl := some "https://pay/c1".toList
         CryptoInvoiceID := some 42
         YookasaUrl := none
         YookasaID := none }] ∧
    float64 (calculatePrice 100 3) = 100 * 3 :=
  have h := checkout_success sampleEnv sampleOutcomes (sampleUpdate "crypto?month=3".toList)
    ⟨[]⟩ 3 sampleCustomer
    { BotInvoiceUrl := "https://pay/c1".toList, InvoiceID := 42 }
    { ConfirmationURL := "https://pay/y1".toList, ID := "y-1".toList }
    (by decide) rfl rfl rfl rfl rfl
  ⟨h.1.1, h.2.2.2 (by decide) (by decide)⟩

/-- C3: when purchase creation succeeds and the provider's invoice creation fails, each
checkout handler leaves the store extended by the purchase exactly as written at creation
(status `New`, no invoice column set, amount, duration and invoice type as created), issues
no update to the purchase store, renders no screen, and every purchase that is pending
afterwards was already in the store, identical. -/
theorem checkout_provider_failure (env : Env) (o : Outcomes) (update : Update)
    (repo : PurchaseRepository) (m : Int) (c : Customer)
    (hm : Atoi ((parseCallbackData update.Data).index "month".toList) = some m)
    (hc : o.customer = some c) (hcreate : o.createOk = true) :
    (o.cryptoInvoice = none →
      (CryptoCallbackHandler env o update repo).1.rows =
        repo.rows ++
          [{ InvoiceType := InvoiceType.Crypto
             Status := PurchaseStatus.New
             Amount := float64 (calculatePrice env.Price m)
             Currency := "RUB".toList
             CustomerID := c.ID
             Month := m
             CryptoInvoiceUrl := none
             CryptoInvoiceID := none
             YookasaUrl := none
             YookasaID := none }] ∧
      (∀ e ∈ (CryptoCallbackHandler env o update repo).2,
        e.isPurchaseUpdate = false ∧ e.isRender = false) ∧
      (∀ (i : Nat) (p : Purchase),
        (CryptoCallbackHandler env o update repo).1.rows[i]? = some p →
        p.Status = PurchaseStatus.Pending → repo.rows[i]? = some p)) ∧
    (o.yookasaInvoice = none →
      (YookasaCallbackHandler env o update repo).1.rows =
        repo.rows ++
          [{ InvoiceType := InvoiceType.Yookasa
             Status := PurchaseStatus.New
             Amount := float64 (calculatePrice env.Price m)
             Currency := "RUB".toList
             CustomerID := c.ID
             Month := m
             CryptoInvoiceUrl := none
             CryptoInvoiceID := none
             YookasaUrl := none
             YookasaID := none }] ∧
      (∀ e ∈ (YookasaCallbackHandler env o update repo).2,
        e.isPurchaseUpdate = false ∧ e.isRender = false) ∧
      (∀ (i : Nat) (p : Purchase),
        (YookasaCallbackHandler env o update repo).1.rows[i]? = some p →
        p.Status = PurchaseStatus.Pending → repo.rows[i]? = some p)) := by
  constructor
  · intro hinv
    obtain ⟨hr, hq⟩ := Crypto_provider_failure env o update repo m c hm hc hcreate hinv
    refine ⟨hr, hq, ?_⟩
    intro i p hp hs
    rw [hr] at hp
    rcases getElem?_append_single _ _ _ _ hp with h | h
    · exact h
    · rw [h] at hs
      simp [createdPurchase] at hs
  · intro hinv
    obtain ⟨hr, hq⟩ := Yookasa_provider_failure env o update repo m c hm hc hcreate hinv
    refine ⟨hr, hq, ?_⟩
    intro i p hp hs
    rw [hr] at hp
    rcases getElem?_append_single _ _ _ _ hp with h | h
    · exact h
    · rw [h] at hs
      simp [createdPurchase] at hs

/-- C3 on the sample store, with both providers failing: the store gains one `New`
purchase and no update or screen is issued. -/
theorem checkout_provider_failure_witness :
    (CryptoCallbackHandler sampleEnv
        { sampleOutcomes with cryptoInvoice := none, yookasaInvoice := none }
        (sampleUpdate "crypto?month=3".toList) sampleRepo).1.rows =
      sampleRepo.rows ++
        [{ InvoiceType := InvoiceType.Crypto
           Status := PurchaseStatus.New
           Amount := float64 (calculatePrice 100 3)
           Currency := "RUB".toList
           CustomerID := 7
           Month := 3
           CryptoInvoiceUrl := none
           CryptoInvoiceID := none
           YookasaUrl := none
           YookasaID := none }] ∧
    (∀ e ∈ (YookasaCallbackHandler sampleEnv
        { sampleOutcomes with cryptoInvoice := none, yookasaInvoice := none }
        (sampleUpdate "crypto?month=3".toList) sampleRepo).2,
      e.isPurchaseUpdate = false ∧ e.isRender = false) :=
  have h := checkout_provider_failure sampleEnv
    { sampleOutcomes with cryptoInvoice := none, yookasaInvoice := none }
    (sampleUpdate "crypto?month=3".toList) sampleRepo 3 sampleCustomer (by decide) rfl rfl
  ⟨(h.1 rfl).1, (h.2 rfl).2.1⟩

end Handler
